import Mathlib

/-!
# Verification of the near-earth-objects linking-and-query engine

A shallow embedding of the repository's three source files:

* `models.py`   — the `NearEarthObject` and `CloseApproach` record types and
  their constructors;
* `extract.py`  — `load_neos` (CSV ingestion) and `load_approaches` (JSON
  ingestion), modelled on the already-decoded row/record lists (file parsing
  itself is the standard library's job and carries no repository logic);
* `database.py` — the `NEODatabase` constructor (index building and
  cross-linking), the two lookup methods and the `query` generator.

Modelling conventions:

* Python strings are `String`; `str.strip()` and `str.upper()` are embedded as
  `pyStrip` and `pyUpper`, operating on the character sequence (ASCII case
  mapping, the relevant range for this data set).
* Python `dict` is an association list where insertion prepends, so a lookup
  that takes the first hit sees the last write, matching dict overwrite
  semantics.  Keys here are strings, values are indices into the record lists.
* Object identity and in-place mutation: records are addressed by their
  position in the input collections.  The constructor's in-place writes to
  `neo.approaches` and `appr.neo` are represented by the `neoApproaches` and
  `apprNeo` components of the database state (per-NEO lists of approach
  indices, and per-approach optional NEO index).  `print` diagnostics are the
  `log` component.
* Code that can raise is embedded in `Except PyError`; total code is a plain
  function, which also witnesses that it completes without raising.
* Float values are kept symbolic (`PyFloat`): no claim depends on numeric
  arithmetic, only on the NaN sentinel and on which string was parsed.
-/

/-- The Python exception kinds the embedded code can raise. -/
inductive PyError where
  | typeError
  | attributeError
  | stopIteration
  deriving DecidableEq, Repr

/-- Symbolic Python float: the NaN sentinel, a value parsed from a string by
`float(s)`, or a value rounded to 4 decimal digits by `round(x, 4)`.  Numeric
arithmetic is irrelevant to every claim, so values stay symbolic. -/
inductive PyFloat where
  | nan
  | parse (s : String)
  | round4 (x : PyFloat)
  deriving DecidableEq, Repr

/-- Modelled from the spec: `helpers.cd_to_datetime` (the `helpers` module is
not under `src/`) parses a calendar-date string into a datetime value; the
spec treats timestamp handling as an external collaborator concern, so the
datetime is kept as an opaque wrapper of the raw string. -/
structure PyDateTime where
  raw : String
  deriving DecidableEq, Repr

/-- Modelled from the spec: the conversion applied by `CloseApproach.__init__`
to the `cd` field; opaque, since no claim inspects the timestamp. -/
def cd_to_datetime (s : String) : PyDateTime := ⟨s⟩

/-- Embedding of Python `str.strip()`: drop whitespace from both ends. -/
def pyStrip (s : String) : String :=
  ⟨((s.data.dropWhile Char.isWhitespace).reverse.dropWhile Char.isWhitespace).reverse⟩

/-- Embedding of Python `str.upper()` (ASCII case mapping). -/
def pyUpper (s : String) : String :=
  ⟨s.data.map Char.toUpper⟩

/-- `models.NearEarthObject`: designation, optional name, diameter, hazard
flag.  The `approaches` list that `__init__` creates empty lives in the
database state (`NEODatabase.neoApproaches`), since it is mutated in place
by the `NEODatabase` constructor. -/
structure NearEarthObject where
  designation : String
  name : Option String
  diameter : PyFloat
  hazardous : Bool
  deriving DecidableEq, Repr

/-- `NearEarthObject.__init__`.  The `name` argument is `Option String`
(`none` is Python `None`).  Mirrors the source line by line:

* `self.name = None if len(info['name'])==0 or info['name'] is None else info['name']`
  — `len` is applied to the raw value first, so a `None` name raises
  `TypeError` before the `is None` test is ever reached;
* `self.diameter = float('nan') if len(info['diameter'])==0 else float(info['diameter'])`;
* `self.hazardous = True if info['pha'] == 'Y' else False`. -/
def NearEarthObject.init (pdes : String) (name : Option String)
    (diameter : String) (pha : String) : Except PyError NearEarthObject :=
  match name with
  | none => .error .typeError
  | some n =>
      .ok { designation := pdes
            name := if n.length = 0 then none else some n
            diameter := if diameter.length = 0 then PyFloat.nan else PyFloat.parse diameter
            hazardous := pha == "Y" }

/-- `models.CloseApproach`: foreign-key designation, timestamp, distance,
velocity.  The `neo` back reference that `__init__` sets to `None` lives in
the database state (`NEODatabase.apprNeo`), since it is mutated in place by
the `NEODatabase` constructor. -/
structure CloseApproach where
  _designation : String
  time : PyDateTime
  distance : PyFloat
  velocity : PyFloat
  deriving DecidableEq, Repr

/-- The `designation` property of `CloseApproach`. -/
def CloseApproach.designation (a : CloseApproach) : String := a._designation

/-- `CloseApproach.__init__`: `_designation` verbatim, `cd` through
`cd_to_datetime`, `dist` and `v_rel` through `round(float(x), 4)`. -/
def CloseApproach.init (des cd dist v_rel : String) : CloseApproach :=
  { _designation := des
    time := cd_to_datetime cd
    distance := PyFloat.round4 (PyFloat.parse dist)
    velocity := PyFloat.round4 (PyFloat.parse v_rel) }

/-- Python `dict` assignment `m[k] = v`: prepend, so the newest binding wins
at lookup time. -/
def dictInsert (k : String) (v : Nat) (m : List (String × Nat)) : List (String × Nat) :=
  (k, v) :: m

/-- Python `dict` lookup `m[k]` / `k in m`: first (i.e. newest) binding. -/
def dictGet? (k : String) (m : List (String × Nat)) : Option Nat :=
  (m.find? (fun p => p.1 == k)).map (fun p => p.2)

/-- First loop of `NEODatabase.__init__` (`database.py` lines 49-52): one pass
over the NEOs, at index `i`, inserting `neo.designation.strip()` into the
designation map and, when `neo.name is not None`,
`neo.name.strip().upper()` into the name map. -/
def buildMaps : List NearEarthObject → Nat → List (String × Nat) → List (String × Nat) →
    List (String × Nat) × List (String × Nat)
  | [], _, pdes, names => (pdes, names)
  | neo :: rest, i, pdes, names =>
      buildMaps rest (i + 1) (dictInsert (pyStrip neo.designation) i pdes)
        (match neo.name with
         | some n => dictInsert (pyUpper (pyStrip n)) i names
         | none => names)

/-- The diagnostic printed on an unresolvable link
(`database.py` line 59). -/
def diagMsg (a : CloseApproach) : String :=
  "NEO des=" ++ a.designation ++ " not found."

/-- `neo.approaches.append(appr)` for the NEO at index `i`, appending approach
index `j`. -/
def appendAt (acc : List (List Nat)) (i : Nat) (j : Nat) : List (List Nat) :=
  acc.set i (acc.getD i [] ++ [j])

/-- Second loop of `NEODatabase.__init__` (`database.py` lines 53-59): one
pass over the approaches, at index `j`, looking up `appr.designation`
(untrimmed) in the designation map; on a hit the approach index is appended
to that NEO's approaches and the approach's `neo` reference is set; on a
`KeyError` the diagnostic is printed. -/
def linkApproaches (pdes : List (String × Nat)) :
    List CloseApproach → Nat → List (List Nat) → List (Option Nat) → List String →
    List (List Nat) × List (Option Nat) × List String
  | [], _, acc, links, log => (acc, links, log)
  | a :: rest, j, acc, links, log =>
      match dictGet? a.designation pdes with
      | some i => linkApproaches pdes rest (j + 1) (appendAt acc i j) (links ++ [some i]) log
      | none => linkApproaches pdes rest (j + 1) acc (links ++ [none]) (log ++ [diagMsg a])

/-- `database.NEODatabase` after `__init__` has run: the two record
collections, the two index maps, and the link state installed by the
in-place mutations (`neoApproaches` = per-NEO approach indices in append
order, `apprNeo` = per-approach optional NEO index), plus the printed
diagnostics. -/
structure NEODatabase where
  _neos : List NearEarthObject
  _approaches : List CloseApproach
  _pdes_to_neos : List (String × Nat)
  _name_to_neos : List (String × Nat)
  neoApproaches : List (List Nat)
  apprNeo : List (Option Nat)
  log : List String
  deriving DecidableEq, Repr

/-- `NEODatabase.__init__`: store the collections, build both index maps in
one pass over the NEOs, then link in one pass over the approaches.  Total:
construction always completes without raising (the missing-key case is the
caught `KeyError` branch). -/
def NEODatabase.init (neos : List NearEarthObject) (approaches : List CloseApproach) :
    NEODatabase :=
  let maps := buildMaps neos 0 [] []
  let res := linkApproaches maps.1 approaches 0 (List.replicate neos.length []) [] []
  { _neos := neos
    _approaches := approaches
    _pdes_to_neos := maps.1
    _name_to_neos := maps.2
    neoApproaches := res.1
    apprNeo := res.2.1
    log := res.2.2 }

/-- `NEODatabase.get_neo_by_designation`: normalize the query with
`strip().upper()` and look it up in the designation map; the stored NEO (an
index in this embedding, dereferenced through `_neos`) on a hit, `None`
otherwise. -/
def NEODatabase.get_neo_by_designation (db : NEODatabase) (designation : String) :
    Option NearEarthObject :=
  let d := pyUpper (pyStrip designation)
  match dictGet? d db._pdes_to_neos with
  | some i => db._neos.get? i
  | none => none

/-- `NEODatabase.get_neo_by_name`.  The argument is `Option String` because
the spec discusses a `None` argument.  The source runs
`name = name.strip().upper()` first, which raises `AttributeError` when
`name` is `None`; the subsequent `name is not None` test is therefore always
true (after the assignment `name` is a string) and only the `len(name)>0`
test is live.  The `try`/`except KeyError` pair is a plain optional
lookup. -/
def NEODatabase.get_neo_by_name (db : NEODatabase) (name : Option String) :
    Except PyError (Option NearEarthObject) :=
  match name with
  | none => .error .attributeError
  | some s =>
      let n := pyUpper (pyStrip s)
      if n.length > 0 then
        .ok ((dictGet? n db._name_to_neos).bind (fun i => db._neos.get? i))
      else
        .ok none

/-- Inner loop of `NEODatabase.query`: `match = True; for f in filters: if
not f(approach): match = False; break`.  Evaluation stops at the first
failing filter. -/
def matchFilters (filters : List (CloseApproach → Bool)) (approach : CloseApproach) : Bool :=
  match filters with
  | [] => true
  | f :: rest => if f approach then matchFilters rest approach else false

/-- Outer loop of `NEODatabase.query`: one pass over the approach collection,
yielding each approach that matches every filter.  The generator is embedded
as the list of yielded values in order. -/
def queryList : List CloseApproach → List (CloseApproach → Bool) → List CloseApproach
  | [], _ => []
  | a :: rest, filters =>
      if matchFilters filters a then a :: queryList rest filters
      else queryList rest filters

/-- `NEODatabase.query(filters=())`. -/
def NEODatabase.query (db : NEODatabase) (filters : List (CloseApproach → Bool)) :
    List CloseApproach :=
  queryList db._approaches filters

/-- `NEODatabase.query` in state-passing form: the method body contains no
assignment to `self`, to either index map, or to any record, so the
translation returns the database component unchanged alongside the yielded
stream. -/
def NEODatabase.queryS (db : NEODatabase) (filters : List (CloseApproach → Bool)) :
    List CloseApproach × NEODatabase :=
  (queryList db._approaches filters, db)

/-- Inner loop of `query` when a filter may raise: a raising filter aborts
evaluation with its exception (nothing in `query` catches it). -/
def matchFiltersE {ε : Type} (filters : List (CloseApproach → Except ε Bool))
    (approach : CloseApproach) : Except ε Bool :=
  match filters with
  | [] => .ok true
  | f :: rest =>
      match f approach with
      | .error e => .error e
      | .ok true => matchFiltersE rest approach
      | .ok false => .ok false

/-- Outer loop of `query` when a filter may raise: the first exception aborts
the whole traversal and propagates; otherwise matching approaches are
yielded in order. -/
def queryListE {ε : Type} : List CloseApproach → List (CloseApproach → Except ε Bool) →
    Except ε (List CloseApproach)
  | [], _ => .ok []
  | a :: rest, filters =>
      match matchFiltersE filters a with
      | .error e => .error e
      | .ok true => (queryListE rest filters).map (fun l => a :: l)
      | .ok false => queryListE rest filters

/-- One data row of the NEO CSV file, restricted to the four fields
`NearEarthObject.__init__` reads (`csv.DictReader` hands every row to the
constructor as a string-valued mapping; the remaining columns are ignored
by the constructor). -/
structure NeoCsvRow where
  pdes : String
  name : String
  diameter : String
  pha : String
  deriving DecidableEq, Repr

/-- The `for entry in reader: ... append(NearEarthObject(**entry))` loop of
`load_neos`: builds one NEO per remaining row, in order, propagating any
constructor exception. -/
def loadNeosLoop : List NeoCsvRow → Except PyError (List NearEarthObject)
  | [] => .ok []
  | r :: rest =>
      match NearEarthObject.init r.pdes (some r.name) r.diameter r.pha with
      | .error e => .error e
      | .ok neo => (loadNeosLoop rest).map (fun l => neo :: l)

/-- `extract.load_neos`, on the decoded data rows (the rows after the header
row, which `csv.DictReader` itself consumes as field names).  The source
then calls `next(reader)` once more — consuming the FIRST DATA ROW — and
builds a `NearEarthObject` from each remaining row; on an empty data section
`next` raises `StopIteration`. -/
def load_neos (rows : List NeoCsvRow) : Except PyError (List NearEarthObject) :=
  match rows with
  | [] => .error .stopIteration
  | _ :: rest => loadNeosLoop rest

/-- The `NearEarthObject` built from a CSV data row (every CSV field is a
string, so the `name` argument is `some`, and the constructor cannot
raise). -/
def neoOfRow (r : NeoCsvRow) : NearEarthObject :=
  { designation := r.pdes
    name := if r.name.length = 0 then none else some r.name
    diameter := if r.diameter.length = 0 then PyFloat.nan else PyFloat.parse r.diameter
    hazardous := r.pha == "Y" }

/-- One record of the close-approach JSON file, restricted to the four fields
`CloseApproach.__init__` reads (the source zips `data['fields']` with each
entry of `data['data']` into a string-valued mapping). -/
structure CadRecord where
  des : String
  cd : String
  dist : String
  v_rel : String
  deriving DecidableEq, Repr

/-- Loop of `extract.load_approaches` (`for n, appr in enumerate(...)`): the
record at index `n` is appended, and THEN the loop breaks when `n > 500` —
so indices 0 through 501 are kept and everything later is dropped. -/
def loadApproachesLoop : List CadRecord → Nat → List CloseApproach
  | [], _ => []
  | r :: rest, n =>
      CloseApproach.init r.des r.cd r.dist r.v_rel ::
        (if 500 < n then [] else loadApproachesLoop rest (n + 1))

/-- `extract.load_approaches`, on the decoded record list. -/
def load_approaches (records : List CadRecord) : List CloseApproach :=
  loadApproachesLoop records 0

/-- The index/key pairs the first constructor loop inserts into the
designation map, in insertion order, starting at index `i`. -/
def entriesP : List NearEarthObject → Nat → List (String × Nat)
  | [], _ => []
  | neo :: rest, i => (pyStrip neo.designation, i) :: entriesP rest (i + 1)

/-- The approach indices the linking loop appends to the NEO at index `i`,
scanning `apprs` with the first approach at index `j`. -/
def linkedIndices (pdes : List (String × Nat)) (i : Nat) :
    List CloseApproach → Nat → List Nat
  | [], _ => []
  | a :: rest, j =>
      if dictGet? a.designation pdes = some i then j :: linkedIndices pdes i rest (j + 1)
      else linkedIndices pdes i rest (j + 1)

/-! ## Concrete fixtures (used by counterexamples and witnesses) -/

/-- Fixture: a NEO with an all-uppercase designation and a name. -/
def neoEros : NearEarthObject :=
  { designation := "433", name := some "Eros", diameter := PyFloat.nan, hazardous := false }

/-- Fixture: a NEO whose designation contains lowercase letters. -/
def neoLower : NearEarthObject :=
  { designation := "a1", name := none, diameter := PyFloat.nan, hazardous := false }

/-- Fixture: an approach that references `neoEros` exactly. -/
def appr433 : CloseApproach :=
  CloseApproach.init "433" "2020-Jan-01 12:00" "0.1" "2.5"

/-- Fixture: an approach whose stored designation carries surrounding
whitespace around `neoEros`'s designation. -/
def apprPadded : CloseApproach :=
  CloseApproach.init " 433 " "2020-Jan-01 12:00" "0.1" "2.5"

/-- Fixture: an approach referencing a designation with no matching NEO. -/
def appr999 : CloseApproach :=
  CloseApproach.init "999999" "2020-Jan-02 12:00" "0.2" "3.5"

/-- Fixture: a filter that raises on every approach. -/
def failFilter : CloseApproach → Except Nat Bool := fun _ => .error 7

/-- Fixture: a CSV data row. -/
def rowA : NeoCsvRow := { pdes := "433", name := "Eros", diameter := "16.84", pha := "N" }

/-- Fixture: another CSV data row. -/
def rowB : NeoCsvRow := { pdes := "719", name := "Albert", diameter := "", pha := "N" }

/-! ## Helper lemmas: dictionary semantics -/

/-- A successful dict lookup returns a binding that is in the list. -/
theorem dictGet?_mem {k : String} {m : List (String × Nat)} {v : Nat}
    (h : dictGet? k m = some v) : (k, v) ∈ m := by
  unfold dictGet? at h
  cases hf : m.find? (fun p => p.1 == k) with
  | none => rw [hf] at h; simp at h
  | some p =>
      rw [hf] at h
      simp only [Option.map_some'] at h
      have hp := List.find?_some hf
      have hm : p ∈ m := List.mem_of_find?_eq_some hf
      obtain ⟨p1, p2⟩ := p
      simp only [beq_iff_eq] at hp
      simp only [Option.some.injEq] at h
      subst hp; subst h
      exact hm

/-- A dict lookup succeeds exactly when some binding carries the key. -/
theorem dictGet?_isSome_iff {k : String} {m : List (String × Nat)} :
    (dictGet? k m).isSome ↔ ∃ v, (k, v) ∈ m := by
  unfold dictGet?
  rw [Option.isSome_map']
  rw [List.find?_isSome]
  constructor
  · rintro ⟨⟨p1, p2⟩, hm, hp⟩
    simp only [beq_iff_eq] at hp
    subst hp
    exact ⟨p2, hm⟩
  · rintro ⟨v, hv⟩
    exact ⟨(k, v), hv, by simp⟩

/-- With pairwise-distinct keys, membership determines the lookup result. -/
theorem dictGet?_eq_some_of_nodup {m : List (String × Nat)}
    (hn : (m.map Prod.fst).Nodup) {k : String} {v : Nat} (hm : (k, v) ∈ m) :
    dictGet? k m = some v := by
  induction m with
  | nil => simp at hm
  | cons p t ih =>
      obtain ⟨p1, p2⟩ := p
      simp only [List.map_cons, List.nodup_cons] at hn
      by_cases hk : p1 = k
      · subst hk
        have hv : v = p2 := by
          rcases List.mem_cons.mp hm with h | h
          · injection h with _ h2
          · exact absurd (List.mem_map.mpr ⟨(p1, v), h, rfl⟩) hn.1
        subst hv
        simp [dictGet?, List.find?_cons]
      · have hm' : (k, v) ∈ t := by
          rcases List.mem_cons.mp hm with h | h
          · exact absurd (congrArg Prod.fst h).symm hk
          · exact h
        have := ih hn.2 hm'
        simpa [dictGet?, List.find?_cons, beq_iff_eq, hk] using this

/-! ## Helper lemmas: the designation index built by the first loop -/

/-- The designation map built by the constructor is the reverse of the
insertion-ordered entry list (newest binding first). -/
theorem buildMaps_fst : ∀ (neos : List NearEarthObject) (i : Nat) (p n : List (String × Nat)),
    (buildMaps neos i p n).1 = (entriesP neos i).reverse ++ p := by
  intro neos
  induction neos with
  | nil => intro i p n; simp [buildMaps, entriesP]
  | cons x r ih =>
      intro i p n
      rw [buildMaps, ih]
      simp [entriesP, dictInsert]

/-- Membership in the entry list: exactly the (trimmed designation, index)
pairs of the NEO list, with indices offset by the starting index. -/
theorem mem_entriesP {k : String} {v : Nat} :
    ∀ (neos : List NearEarthObject) (i : Nat),
    (k, v) ∈ entriesP neos i ↔
      ∃ j, ∃ hj : j < neos.length, v = i + j ∧ pyStrip (neos.get ⟨j, hj⟩).designation = k := by
  intro neos
  induction neos with
  | nil => intro i; simp [entriesP]
  | cons x r ih =>
      intro i
      simp only [entriesP, List.mem_cons, ih, Prod.mk.injEq]
      constructor
      · rintro (⟨hk, hv⟩ | ⟨j, hj, hv, hk⟩)
        · exact ⟨0, by simp, by omega, by simpa using hk.symm⟩
        · exact ⟨j + 1, by simpa using hj, by omega, by simpa using hk⟩
      · rintro ⟨j, hj, hv, hk⟩
        cases j with
        | zero => exact Or.inl ⟨by simpa using hk.symm, by omega⟩
        | succ j' =>
            exact Or.inr ⟨j', by simpa using hj, by omega, by simpa using hk⟩

/-- The keys of the entry list are the trimmed designations. -/
theorem entriesP_map_fst : ∀ (neos : List NearEarthObject) (i : Nat),
    (entriesP neos i).map Prod.fst = neos.map (fun neo => pyStrip neo.designation) := by
  intro neos
  induction neos with
  | nil => intro i; simp [entriesP]
  | cons x r ih => intro i; simp [entriesP, ih]

/-! ## Helper lemmas: the linking loop -/

/-- The `neo` references installed by the linking loop: one lookup result per
approach, in input order. -/
theorem linkApproaches_links (pdes : List (String × Nat)) :
    ∀ (apprs : List CloseApproach) (j : Nat) (acc : List (List Nat))
      (links : List (Option Nat)) (log : List String),
      (linkApproaches pdes apprs j acc links log).2.1 =
        links ++ apprs.map (fun a => dictGet? a.designation pdes) := by
  intro apprs
  induction apprs with
  | nil => intros; simp [linkApproaches]
  | cons a rest ih =>
      intro j acc links log
      rw [linkApproaches]
      cases h : dictGet? a.designation pdes with
      | some i => rw [ih]; simp [h]
      | none => rw [ih]; simp [h]

/-- The diagnostics printed by the linking loop: one message per approach
whose designation misses the map, in input order. -/
theorem linkApproaches_log (pdes : List (String × Nat)) :
    ∀ (apprs : List CloseApproach) (j : Nat) (acc : List (List Nat))
      (links : List (Option Nat)) (log : List String),
      (linkApproaches pdes apprs j acc links log).2.2 =
        log ++ (apprs.filter (fun a => (dictGet? a.designation pdes).isNone)).map diagMsg := by
  intro apprs
  induction apprs with
  | nil => intros; simp [linkApproaches]
  | cons a rest ih =>
      intro j acc links log
      rw [linkApproaches]
      cases h : dictGet? a.designation pdes with
      | some i => rw [ih]; simp [List.filter_cons, h]
      | none => rw [ih]; simp [List.filter_cons, h]

/-- The linking loop does not change the number of per-NEO approach lists. -/
theorem linkApproaches_acc_length (pdes : List (String × Nat)) :
    ∀ (apprs : List CloseApproach) (j : Nat) (acc : List (List Nat))
      (links : List (Option Nat)) (log : List String),
      (linkApproaches pdes apprs j acc links log).1.length = acc.length := by
  intro apprs
  induction apprs with
  | nil => intros; simp [linkApproaches]
  | cons a rest ih =>
      intro j acc links log
      rw [linkApproaches]
      cases h : dictGet? a.designation pdes with
      | some i => rw [ih]; simp [appendAt]
      | none => rw [ih]

/-- What the linking loop appends to the approach list of the NEO at (in-range)
index `i`: exactly the indices `linkedIndices` describes, after whatever was
already there. -/
theorem linkApproaches_acc_getD (pdes : List (String × Nat)) :
    ∀ (apprs : List CloseApproach) (j : Nat) (acc : List (List Nat))
      (links : List (Option Nat)) (log : List String) (i : Nat), i < acc.length →
      (linkApproaches pdes apprs j acc links log).1.getD i [] =
        acc.getD i [] ++ linkedIndices pdes i apprs j := by
  intro apprs
  induction apprs with
  | nil => intros; simp [linkApproaches, linkedIndices]
  | cons a rest ih =>
      intro j acc links log i hi
      rw [linkApproaches, linkedIndices]
      cases h : dictGet? a.designation pdes with
      | some i' =>
          by_cases hii : i' = i
          · subst hii
            rw [ih _ (appendAt acc i' j) _ _ i' (by simpa [appendAt] using hi)]
            simp [appendAt, List.getD_eq_getElem?_getD, List.getElem?_set, hi, h,
              List.getElem?_eq_getElem hi]
          · rw [ih _ (appendAt acc i' j) _ _ i (by simpa [appendAt] using hi)]
            have hne : ¬ (some i' = some i) := by simpa using hii
            simp [appendAt, List.getD_eq_getElem?_getD, List.getElem?_set, hii, h, hne]
      | none =>
          rw [ih _ acc _ _ i hi]
          simp [h]

/-- Membership in `linkedIndices`: exactly the positions (offset by the start
index) of the approaches whose designation resolves to NEO index `i`. -/
theorem mem_linkedIndices (pdes : List (String × Nat)) (i : Nat) :
    ∀ (apprs : List CloseApproach) (j0 j : Nat),
    j ∈ linkedIndices pdes i apprs j0 ↔
      ∃ k, ∃ hk : k < apprs.length, j = j0 + k ∧
        dictGet? (apprs.get ⟨k, hk⟩).designation pdes = some i := by
  intro apprs
  induction apprs with
  | nil => intro j0 j; simp [linkedIndices]
  | cons a rest ih =>
      intro j0 j
      rw [linkedIndices]
      by_cases h : dictGet? a.designation pdes = some i
      · rw [if_pos h]
        simp only [List.mem_cons, ih]
        constructor
        · rintro (rfl | ⟨k, hk, rfl, hget⟩)
          · exact ⟨0, by simp, by omega, by simpa using h⟩
          · exact ⟨k + 1, by simpa using hk, by omega, by simpa using hget⟩
        · rintro ⟨k, hk, rfl, hget⟩
          cases k with
          | zero => exact Or.inl (by omega)
          | succ k' =>
              exact Or.inr ⟨k', by simpa using hk, by omega, by simpa using hget⟩
      · rw [if_neg h]
        simp only [ih]
        constructor
        · rintro ⟨k, hk, rfl, hget⟩
          exact ⟨k + 1, by simpa using hk, by omega, by simpa using hget⟩
        · rintro ⟨k, hk, rfl, hget⟩
          cases k with
          | zero => exact absurd (by simpa using hget) h
          | succ k' =>
              exact ⟨k', by simpa using hk, by omega, by simpa using hget⟩

/-- Every index produced by `linkedIndices` is at least the start index. -/
theorem linkedIndices_ge (pdes : List (String × Nat)) (i : Nat) :
    ∀ (apprs : List CloseApproach) (j0 j : Nat),
    j ∈ linkedIndices pdes i apprs j0 → j0 ≤ j := by
  intro apprs j0 j h
  obtain ⟨k, hk, rfl, _⟩ := (mem_linkedIndices pdes i apprs j0 j).mp h
  omega

/-- The indices produced by `linkedIndices` are strictly increasing: the
per-NEO approach lists preserve the input order of the approach
collection. -/
theorem linkedIndices_pairwise (pdes : List (String × Nat)) (i : Nat) :
    ∀ (apprs : List CloseApproach) (j0 : Nat),
    (linkedIndices pdes i apprs j0).Pairwise (fun a b => a < b) := by
  intro apprs
  induction apprs with
  | nil => intro j0; simp [linkedIndices]
  | cons a rest ih =>
      intro j0
      rw [linkedIndices]
      by_cases h : dictGet? a.designation pdes = some i
      · rw [if_pos h]
        refine List.Pairwise.cons ?_ (ih (j0 + 1))
        intro b hb
        have := linkedIndices_ge pdes i rest (j0 + 1) b hb
        omega
      · rw [if_neg h]
        exact ih (j0 + 1)

/-- The indices produced by `linkedIndices` contain no duplicates. -/
theorem linkedIndices_nodup (pdes : List (String × Nat)) (i : Nat)
    (apprs : List CloseApproach) (j0 : Nat) :
    (linkedIndices pdes i apprs j0).Nodup :=
  (linkedIndices_pairwise pdes i apprs j0).imp Nat.ne_of_lt

/-! ## Helper lemmas: the database state after construction -/

/-- The designation map of a freshly built database. -/
theorem init_pdes (neos : List NearEarthObject) (apprs : List CloseApproach) :
    (NEODatabase.init neos apprs)._pdes_to_neos = (entriesP neos 0).reverse := by
  simp [NEODatabase.init, buildMaps_fst]

/-- The `neo` references installed by construction, indexed by approach
position. -/
theorem init_apprNeo (neos : List NearEarthObject) (apprs : List CloseApproach) :
    (NEODatabase.init neos apprs).apprNeo =
      apprs.map (fun a => dictGet? a.designation ((entriesP neos 0).reverse)) := by
  simp [NEODatabase.init, linkApproaches_links, buildMaps_fst]

/-- The diagnostics printed during construction. -/
theorem init_log (neos : List NearEarthObject) (apprs : List CloseApproach) :
    (NEODatabase.init neos apprs).log =
      (apprs.filter
        (fun a => (dictGet? a.designation ((entriesP neos 0).reverse)).isNone)).map diagMsg := by
  simp [NEODatabase.init, linkApproaches_log, buildMaps_fst]

/-- One per-NEO approach list per NEO. -/
theorem init_neoApproaches_length (neos : List NearEarthObject) (apprs : List CloseApproach) :
    (NEODatabase.init neos apprs).neoApproaches.length = neos.length := by
  simp [NEODatabase.init, linkApproaches_acc_length]

/-- The approach list of the NEO at (in-range) index `i` after construction. -/
theorem init_neoApproaches_getD (neos : List NearEarthObject) (apprs : List CloseApproach)
    {i : Nat} (hi : i < neos.length) :
    (NEODatabase.init neos apprs).neoApproaches.getD i [] =
      linkedIndices ((entriesP neos 0).reverse) i apprs 0 := by
  have h := linkApproaches_acc_getD ((buildMaps neos 0 [] []).1) apprs 0
    (List.replicate neos.length []) [] [] i (by simpa using hi)
  simp only [NEODatabase.init]
  rw [h, buildMaps_fst]
  simp [List.getD_eq_getElem?_getD, List.getElem?_replicate, hi]

/-- A hit in the designation map points at an in-range NEO whose trimmed
designation is the key. -/
theorem db_pdes_lookup_some {neos : List NearEarthObject} {apprs : List CloseApproach}
    {k : String} {i : Nat}
    (h : dictGet? k (NEODatabase.init neos apprs)._pdes_to_neos = some i) :
    ∃ hi : i < neos.length, pyStrip (neos.get ⟨i, hi⟩).designation = k := by
  rw [init_pdes] at h
  have hm : (k, i) ∈ (entriesP neos 0).reverse := dictGet?_mem h
  rw [List.mem_reverse] at hm
  obtain ⟨j, hj, hv, hk⟩ := (mem_entriesP neos 0).mp hm
  have : j = i := by omega
  subst this
  exact ⟨hj, hk⟩

/-- A NEO whose trimmed designation is `k` makes the lookup of `k` succeed. -/
theorem db_pdes_lookup_isSome {neos : List NearEarthObject} (apprs : List CloseApproach)
    {k : String} (h : ∃ neo ∈ neos, pyStrip neo.designation = k) :
    (dictGet? k (NEODatabase.init neos apprs)._pdes_to_neos).isSome := by
  rw [init_pdes]
  obtain ⟨neo, hmem, hk⟩ := h
  obtain ⟨⟨j, hj⟩, rfl⟩ := List.mem_iff_get.mp hmem
  refine dictGet?_isSome_iff.mpr ⟨j, ?_⟩
  rw [List.mem_reverse]
  exact (mem_entriesP neos 0).mpr ⟨j, hj, by omega, hk⟩

/-- With pairwise-distinct trimmed designations, the lookup of a NEO's trimmed
designation returns exactly that NEO's index. -/
theorem db_pdes_lookup_eq {neos : List NearEarthObject} (apprs : List CloseApproach)
    (huniq : neos.Pairwise (fun a b => pyStrip a.designation ≠ pyStrip b.designation))
    {i : Nat} (hi : i < neos.length) :
    dictGet? (pyStrip (neos.get ⟨i, hi⟩).designation)
      (NEODatabase.init neos apprs)._pdes_to_neos = some i := by
  rw [init_pdes]
  apply dictGet?_eq_some_of_nodup
  · rw [List.map_reverse, List.nodup_reverse, entriesP_map_fst]
    exact List.pairwise_map.mpr huniq
  · rw [List.mem_reverse]
    exact (mem_entriesP neos 0).mpr ⟨i, hi, by omega, rfl⟩

/-! ## Helper lemmas: the query loops -/

/-- The inner filter loop computes the conjunction of all filters. -/
theorem matchFilters_eq_all (filters : List (CloseApproach → Bool)) (a : CloseApproach) :
    matchFilters filters a = filters.all (fun f => f a) := by
  induction filters with
  | nil => rfl
  | cons f rest ih => cases h : f a <;> simp [matchFilters, h, ih]

/-- The query loop yields exactly the approaches matching every filter, in
input order. -/
theorem queryList_eq_filter (apprs : List CloseApproach)
    (filters : List (CloseApproach → Bool)) :
    queryList apprs filters = apprs.filter (fun a => matchFilters filters a) := by
  induction apprs with
  | nil => rfl
  | cons a rest ih =>
      rw [queryList]
      cases h : matchFilters filters a <;> simp [List.filter_cons, h, ih]

/-! ## Helper lemmas: ingestion -/

/-- A `NearEarthObject` built from a CSV data row (whose fields are always
strings) never raises. -/
theorem init_row (r : NeoCsvRow) :
    NearEarthObject.init r.pdes (some r.name) r.diameter r.pha = .ok (neoOfRow r) := rfl

/-- The `load_neos` loop on the rows following the consumed one: one NEO per
row, never raising. -/
theorem loadNeosLoop_eq (rows : List NeoCsvRow) :
    loadNeosLoop rows = Except.ok (rows.map neoOfRow) := by
  induction rows with
  | nil => rfl
  | cons r rest ih => rw [loadNeosLoop, init_row, ih]; rfl

/-- The `load_approaches` loop starting at index `n ≤ 501` keeps exactly the
next `502 - n` records. -/
theorem loadApproachesLoop_eq :
    ∀ (records : List CadRecord) (n : Nat), n ≤ 501 →
    loadApproachesLoop records n =
      (records.take (502 - n)).map (fun r => CloseApproach.init r.des r.cd r.dist r.v_rel) := by
  intro records
  induction records with
  | nil => intro n hn; simp [loadApproachesLoop]
  | cons r rest ih =>
      intro n hn
      rw [loadApproachesLoop]
      by_cases h : 500 < n
      · have hn' : n = 501 := by omega
        subst hn'
        rw [if_pos h]
        norm_num
      · rw [if_neg h, ih (n + 1) (by omega)]
        have h2 : 502 - n = (502 - (n + 1)) + 1 := by omega
        rw [h2, List.take_succ_cons]
        simp

/-! ## Claim theorems -/

/-- Claim C4: `query(predicates)` yields exactly those approaches for which
every predicate returns true (the inner loop short-circuits at the first
failing predicate), in underlying storage order, in one pass; an empty
predicate collection yields every approach exactly once. -/
theorem C4_query_and_semantics (db : NEODatabase) (filters : List (CloseApproach → Bool)) :
    db.query filters = db._approaches.filter (fun a => filters.all (fun f => f a))
    ∧ db.query [] = db._approaches := by
  constructor
  · rw [NEODatabase.query, queryList_eq_filter]
    exact List.filter_congr (fun a _ => matchFilters_eq_all filters a)
  · rw [NEODatabase.query, queryList_eq_filter]
    simp [matchFilters]

/-- Claim C10: the `NearEarthObject` constructor maps an empty-string name to
the absent sentinel and an empty-string diameter to NaN, but a null name
raises `TypeError`, because the length test runs before the null test. -/
theorem C10_neo_constructor_edge_cases :
    (∀ pdes diameter pha, ∃ neo,
        NearEarthObject.init pdes (some "") diameter pha = .ok neo ∧ neo.name = none)
    ∧ (∀ pdes name pha, ∃ neo,
        NearEarthObject.init pdes (some name) "" pha = .ok neo ∧ neo.diameter = PyFloat.nan)
    ∧ (∀ pdes diameter pha,
        NearEarthObject.init pdes none diameter pha = .error PyError.typeError) := by
  refine ⟨?_, ?_, ?_⟩
  · intro pdes diameter pha
    exact ⟨_, rfl, by simp⟩
  · intro pdes name pha
    exact ⟨_, rfl, by simp [NearEarthObject.init]⟩
  · intro pdes diameter pha
    rfl

/-- Claim C9: `load_approaches` returns at most 502 records — the loop over
the data records breaks right after processing index 501, so every later
record is silently dropped. -/
theorem C9_load_approaches_truncates (records : List CadRecord) :
    load_approaches records =
      (records.take 502).map (fun r => CloseApproach.init r.des r.cd r.dist r.v_rel)
    ∧ (load_approaches records).length ≤ 502 := by
  have h := loadApproachesLoop_eq records 0 (by omega)
  constructor
  · simpa [load_approaches] using h
  · rw [load_approaches, h]
    simp only [List.length_map, List.length_take]
    omega

/-- Claim C8: `load_neos` builds NEOs only from the second data row onward:
the stray `next(reader)` after `csv.DictReader` (which already consumed the
header row) discards the first data record, which never reaches the returned
collection. -/
theorem C8_load_neos_skips_first_row (rows : List NeoCsvRow) (h : rows ≠ []) :
    load_neos rows = .ok ((rows.drop 1).map neoOfRow) := by
  cases rows with
  | nil => exact absurd rfl h
  | cons r rest =>
      rw [load_neos, loadNeosLoop_eq]
      rfl

/-- Witness for C8 at a concrete two-row input: only the second row's NEO is
returned. -/
theorem C8_load_neos_skips_first_row_witness :
    load_neos [rowA, rowB] = .ok (([rowA, rowB].drop 1).map neoOfRow) :=
  C8_load_neos_skips_first_row [rowA, rowB] (by simp)

/-- Claim C3 (code bug): `get_neo_by_name` on the empty string returns
not-found, but on the null value it does NOT return not-found — the source
normalizes with `name.strip().upper()` before its `name is not None` test,
so a null name raises `AttributeError`. -/
theorem C3_get_neo_by_name_null_and_empty (db : NEODatabase) :
    db.get_neo_by_name none = .error PyError.attributeError
    ∧ db.get_neo_by_name (some "") = .ok none := by
  constructor
  · rfl
  · simp only [NEODatabase.get_neo_by_name]
    rw [if_neg (by decide)]

/-- Claim C6: a predicate that raises while `query` evaluates some approach
is not caught by the engine — once every earlier approach evaluated without
raising, the exception propagates to the caller and aborts the traversal:
the result is that error, whatever approaches would have followed, with no
retry and no partial result. -/
theorem C6_query_propagates_exception {ε : Type}
    (filters : List (CloseApproach → Except ε Bool))
    (pre : List CloseApproach) (a : CloseApproach) (post : List CloseApproach) (e : ε)
    (hpre : ∀ b ∈ pre, ∃ v, matchFiltersE filters b = .ok v)
    (ha : matchFiltersE filters a = .error e) :
    queryListE (pre ++ a :: post) filters = .error e := by
  induction pre with
  | nil => simp [queryListE, ha]
  | cons b rest ih =>
      obtain ⟨v, hv⟩ := hpre b (by simp)
      have ih' := ih (fun c hc => hpre c (by simp [hc]))
      cases v <;> simp [queryListE, hv, ih', Except.map]

/-- Witness for C6: a single always-raising filter over a one-approach
collection makes the query evaluate to that exception. -/
theorem C6_query_propagates_exception_witness :
    queryListE [appr433] [failFilter] = .error 7 :=
  C6_query_propagates_exception [failFilter] [] appr433 [] 7 (by simp) rfl

/-- Claim C7: two `query` calls with pointwise-equivalent filter collections
yield equal result sequences in the same order, and neither call changes the
database state (the state-passing form returns the database unchanged). -/
theorem C7_query_idempotent_pure (db : NEODatabase)
    (fs1 fs2 : List (CloseApproach → Bool))
    (hequiv : ∀ a ∈ db._approaches, matchFilters fs1 a = matchFilters fs2 a) :
    (db.queryS fs1).1 = (db.queryS fs2).1
    ∧ (db.queryS fs1).2 = db ∧ (db.queryS fs2).2 = db := by
  refine ⟨?_, rfl, rfl⟩
  show queryList db._approaches fs1 = queryList db._approaches fs2
  rw [queryList_eq_filter, queryList_eq_filter]
  exact List.filter_congr hequiv

/-- Witness for C7: the empty filter collection and a single always-true
filter are equivalent, and both calls leave the concrete database
unchanged. -/
theorem C7_query_idempotent_pure_witness :
    ((NEODatabase.init [neoEros] [appr433]).queryS []).1 =
      ((NEODatabase.init [neoEros] [appr433]).queryS [fun _ => true]).1
    ∧ ((NEODatabase.init [neoEros] [appr433]).queryS []).2 = NEODatabase.init [neoEros] [appr433]
    ∧ ((NEODatabase.init [neoEros] [appr433]).queryS [fun _ => true]).2 =
        NEODatabase.init [neoEros] [appr433] :=
  C7_query_idempotent_pure (NEODatabase.init [neoEros] [appr433]) [] [fun _ => true]
    (fun a _ => by simp [matchFilters])

/-- Claim C1 counterexample: the index stores trimmed designations WITHOUT
case folding while the lookup uppercases the query, so a NEO whose
designation contains lowercase letters is not found even when the query
equals its identifier verbatim. -/
theorem C1_lookup_counterexample :
    (NEODatabase.init [neoLower] []).get_neo_by_designation neoLower.designation = none
    ∧ neoLower.designation = "a1" := by
  exact ⟨by decide, rfl⟩

/-- Claim C1 (amended): designation lookup is exact against the TRIMMED (not
case-folded) stored designation.  Any query whose trimmed, uppercased form
equals a NEO's trimmed designation returns that NEO — so case- and
whitespace-insensitive lookup holds exactly for NEOs whose designations are
already uppercase — and a query whose normalized form equals no NEO's
trimmed designation returns the null sentinel, with no partial matching. -/
theorem C1_lookup_amended (neos : List NearEarthObject) (apprs : List CloseApproach)
    (huniq : neos.Pairwise (fun a b => pyStrip a.designation ≠ pyStrip b.designation)) :
    (∀ i (hi : i < neos.length) (s : String),
        pyUpper (pyStrip s) = pyStrip (neos.get ⟨i, hi⟩).designation →
        (NEODatabase.init neos apprs).get_neo_by_designation s = some (neos.get ⟨i, hi⟩))
    ∧ (∀ s : String,
        (∀ neo ∈ neos, pyStrip neo.designation ≠ pyUpper (pyStrip s)) →
        (NEODatabase.init neos apprs).get_neo_by_designation s = none) := by
  constructor
  · intro i hi s hs
    have hlook := db_pdes_lookup_eq apprs huniq hi
    simp only [NEODatabase.get_neo_by_designation]
    rw [hs, hlook]
    show neos.get? i = some (neos.get ⟨i, hi⟩)
    rw [List.get?_eq_getElem?, List.getElem?_eq_getElem hi]
    rfl
  · intro s hmiss
    simp only [NEODatabase.get_neo_by_designation]
    cases hlook : dictGet? (pyUpper (pyStrip s)) (NEODatabase.init neos apprs)._pdes_to_neos with
    | some i =>
        obtain ⟨hi, hk⟩ := db_pdes_lookup_some hlook
        exact absurd hk (hmiss _ (List.get_mem neos i hi))
    | none => rfl

/-- Witness for the amended C1: `" 433 "` resolves to the NEO stored as
`"433"`, and a designation present for no NEO returns the null sentinel. -/
theorem C1_lookup_amended_witness :
    (NEODatabase.init [neoEros] []).get_neo_by_designation " 433 " =
      some (([neoEros] : List NearEarthObject).get ⟨0, by decide⟩)
    ∧ (NEODatabase.init [neoEros] []).get_neo_by_designation "999" = none :=
  ⟨(C1_lookup_amended [neoEros] [] (by simp)).1 0 (by decide) " 433 " (by decide),
   (C1_lookup_amended [neoEros] [] (by simp)).2 "999"
     (by intro neo h; rw [List.mem_singleton] at h; subst h; decide)⟩

/-- Claim C2 counterexample: the linking loop looks up the approach's RAW,
untrimmed designation, so an approach whose stored designation carries
surrounding whitespace is left unlinked (null `neo`, empty approach list)
although its trimmed designation equals the NEO's trimmed identifier. -/
theorem C2_linking_counterexample :
    pyStrip apprPadded.designation = pyStrip neoEros.designation
    ∧ (NEODatabase.init [neoEros] [apprPadded]).apprNeo = [none]
    ∧ (NEODatabase.init [neoEros] [apprPadded]).neoApproaches = [[]] := by
  exact ⟨by decide, by decide, by decide⟩

/-- Claim C2 (amended): for every approach whose designation — as stored,
untrimmed — equals some NEO's trimmed designation, construction links it:
its `neo` reference is set to a NEO whose trimmed designation equals the
approach's stored designation, the approach appears exactly once in that
NEO's approach list, and that list is strictly increasing in input position
(the input order of the approach collection is preserved). -/
theorem C2_linking_amended (neos : List NearEarthObject) (apprs : List CloseApproach)
    (j : Nat) (hj : j < apprs.length)
    (hmatch : ∃ neo ∈ neos, pyStrip neo.designation = (apprs.get ⟨j, hj⟩).designation) :
    ∃ i, ∃ hi : i < neos.length,
      (NEODatabase.init neos apprs).apprNeo.get? j = some (some i)
      ∧ pyStrip (neos.get ⟨i, hi⟩).designation = (apprs.get ⟨j, hj⟩).designation
      ∧ ((NEODatabase.init neos apprs).neoApproaches.getD i []).count j = 1
      ∧ ((NEODatabase.init neos apprs).neoApproaches.getD i []).Pairwise (fun a b => a < b) := by
  have hsome := db_pdes_lookup_isSome apprs hmatch
  obtain ⟨i, hlook⟩ := Option.isSome_iff_exists.mp hsome
  obtain ⟨hi, hk⟩ := db_pdes_lookup_some hlook
  rw [init_pdes] at hlook
  refine ⟨i, hi, ?_, hk, ?_, ?_⟩
  · rw [init_apprNeo, List.get?_eq_getElem?, List.getElem?_map,
      List.getElem?_eq_getElem hj]
    show some (dictGet? ((apprs.get ⟨j, hj⟩).designation) ((entriesP neos 0).reverse)) = _
    rw [hlook]
  · rw [init_neoApproaches_getD neos apprs hi]
    refine List.count_eq_one_of_mem (linkedIndices_nodup _ i apprs 0) ?_
    exact (mem_linkedIndices _ i apprs 0 j).mpr ⟨j, hj, by omega, hlook⟩
  · rw [init_neoApproaches_getD neos apprs hi]
    exact linkedIndices_pairwise _ i apprs 0

/-- Witness for the amended C2: the one approach designated `"433"` is linked
to the NEO `"433"`, appears exactly once in its approach list, which is
increasing. -/
theorem C2_linking_amended_witness :
    ∃ i, ∃ hi : i < ([neoEros] : List NearEarthObject).length,
      (NEODatabase.init [neoEros] [appr433]).apprNeo.get? 0 = some (some i)
      ∧ pyStrip (([neoEros] : List NearEarthObject).get ⟨i, hi⟩).designation =
          (([appr433] : List CloseApproach).get ⟨0, by decide⟩).designation
      ∧ ((NEODatabase.init [neoEros] [appr433]).neoApproaches.getD i []).count 0 = 1
      ∧ ((NEODatabase.init [neoEros] [appr433]).neoApproaches.getD i []).Pairwise
          (fun a b => a < b) :=
  C2_linking_amended [neoEros] [appr433] 0 (by decide)
    ⟨neoEros, by simp, by decide⟩

/-- Claim C5: an approach whose designation resolves to no NEO stays
unlinked: construction completes (the constructor is a total function) with
its `neo` reference null, the approach belongs to no NEO's approach list,
the diagnostic for it is printed, and `query` with no filters still yields
it. -/
theorem C5_unmatched_approach (neos : List NearEarthObject) (apprs : List CloseApproach)
    (j : Nat) (hj : j < apprs.length)
    (hnomatch : ∀ neo ∈ neos, pyStrip neo.designation ≠ (apprs.get ⟨j, hj⟩).designation) :
    (NEODatabase.init neos apprs).apprNeo.get? j = some none
    ∧ (∀ i, j ∉ (NEODatabase.init neos apprs).neoApproaches.getD i [])
    ∧ diagMsg (apprs.get ⟨j, hj⟩) ∈ (NEODatabase.init neos apprs).log
    ∧ apprs.get ⟨j, hj⟩ ∈ (NEODatabase.init neos apprs).query [] := by
  have hnone : dictGet? ((apprs.get ⟨j, hj⟩).designation) ((entriesP neos 0).reverse) = none := by
    cases hlook : dictGet? ((apprs.get ⟨j, hj⟩).designation)
        (NEODatabase.init neos apprs)._pdes_to_neos with
    | some i =>
        obtain ⟨hi, hk⟩ := db_pdes_lookup_some hlook
        exact absurd hk (hnomatch _ (List.get_mem neos i hi))
    | none => rw [init_pdes] at hlook; exact hlook
  refine ⟨?_, ?_, ?_, ?_⟩
  · rw [init_apprNeo, List.get?_eq_getElem?, List.getElem?_map,
      List.getElem?_eq_getElem hj]
    show some (dictGet? ((apprs.get ⟨j, hj⟩).designation) ((entriesP neos 0).reverse)) = _
    rw [hnone]
  · intro i
    by_cases hi : i < neos.length
    · rw [init_neoApproaches_getD neos apprs hi]
      intro hmem
      obtain ⟨k, hk, hjk, hget⟩ := (mem_linkedIndices _ i apprs 0 j).mp hmem
      have : k = j := by omega
      subst this
      rw [hnone] at hget
      exact Option.noConfusion hget
    · rw [List.getD_eq_getElem?_getD, List.getElem?_eq_none]
      · simp
      · rw [init_neoApproaches_length]; omega
  · rw [init_log]
    refine List.mem_map.mpr ⟨apprs.get ⟨j, hj⟩, ?_, rfl⟩
    refine List.mem_filter.mpr ⟨List.get_mem apprs j hj, ?_⟩
    rw [hnone]
    rfl
  · show apprs.get ⟨j, hj⟩ ∈ queryList (NEODatabase.init neos apprs)._approaches []
    rw [queryList_eq_filter]
    refine List.mem_filter.mpr ⟨?_, rfl⟩
    show apprs.get ⟨j, hj⟩ ∈ apprs
    exact List.get_mem apprs j hj

/-- Witness for C5: the sole approach, designated `"999999"`, matches the
sole NEO `"433"` of the database nowhere: it stays unlinked, is logged, and
is still yielded by an unfiltered query. -/
theorem C5_unmatched_approach_witness :
    (NEODatabase.init [neoEros] [appr999]).apprNeo.get? 0 = some none
    ∧ (∀ i, 0 ∉ (NEODatabase.init [neoEros] [appr999]).neoApproaches.getD i [])
    ∧ diagMsg (([appr999] : List CloseApproach).get ⟨0, by decide⟩) ∈
        (NEODatabase.init [neoEros] [appr999]).log
    ∧ ([appr999] : List CloseApproach).get ⟨0, by decide⟩ ∈
        (NEODatabase.init [neoEros] [appr999]).query [] :=
  C5_unmatched_approach [neoEros] [appr999] 0 (by decide)
    (by intro neo h; rw [List.mem_singleton] at h; subst h; decide)
